import Mathlib

/-!
Shallow embedding of the plan-execution engine of `src/App.tsx`
(repository robert2687/app-build-agentic).

The relevant source regions are:
* `updateAgentStatus` (src/App.tsx:2081-2087),
* `executePlan` (src/App.tsx:2089-2145),
* the plan-acceptance check of `handleSendMessage` (src/App.tsx:2238-2245),
* `updateFileContent` (src/App.tsx:1920-1939), `findFileByPath`
  (src/App.tsx:1523-1532) and `formatCodeWithPrettier` (src/App.tsx:736-766).

JavaScript peculiarities that matter and are modelled explicitly:
* `x || y` treats `undefined` and the empty string as falsy (`jsOrElse`,
  `jsOrStr`);
* property access on `undefined` (`step.args.from` when `args` is absent,
  `step.args.path.match` when `path` is absent) throws a `TypeError`, which
  aborts the enclosing `async` function; inside `executePlan` there is no
  try/catch, so the abort propagates out of the whole loop (`JsError`);
* a template literal renders an absent value as the string `"undefined"`
  (`jsUndefStr`);
* `formatCodeWithPrettier` catches every formatting error and returns the
  original content, so `updateFileContent` never fails; it is modelled by an
  arbitrary total formatter parameter `fmt : String → String → String`.

The record field `agentsTrace` is a ghost history: every value ever assigned
to the `agents` React state is appended to it, so that properties "at every
instant" can be stated as properties of every entry of the trace.
-/

namespace AppBuildAgentic

/-- Agent status, `'Idle' | 'Active'` in the source (`interface Agent`,
src/App.tsx:840-844).  The spec's word `Working` corresponds to `Active`. -/
inductive AgentStatus where
  | Idle : AgentStatus
  | Active : AgentStatus
deriving DecidableEq

/-- One roster entry, `interface Agent {name; status; task?}`
(src/App.tsx:840-844). -/
structure Agent where
  name : String
  status : AgentStatus
  task : Option String := none
deriving DecidableEq

/-- `initialAgents` (src/App.tsx:1006-1011). -/
def initialAgents : List Agent :=
  [ { name := "Orchestrator", status := AgentStatus.Idle },
    { name := "Frontend-Dev", status := AgentStatus.Idle },
    { name := "Backend-Dev", status := AgentStatus.Idle },
    { name := "QA-Tester", status := AgentStatus.Idle } ]

/-- `interface FileNode` (src/App.tsx:831-838): a node is a file or a folder
(`type: 'folder' | 'file'`); files carry an optional `extension` and optional
`content`, folders carry children (a folder whose `children` is absent
behaves like one with an empty list in every traversal below). -/
inductive FileNode where
  | file (name : String) (extension : Option String) (path : String)
      (content : Option String) : FileNode
  | folder (name : String) (path : String) (children : List FileNode) :
      FileNode

/-- The `path` field of a node. -/
def FileNode.path : FileNode → String
  | FileNode.file _ _ p _ => p
  | FileNode.folder _ p _ => p

/-- The optional `extension` field of a node (absent on folders). -/
def FileNode.ext : FileNode → Option String
  | FileNode.file _ e _ _ => e
  | FileNode.folder _ _ _ => none

/-- `findFileByPath` (src/App.tsx:1523-1532): first node in preorder
(node before children before later siblings) whose `path` matches. -/
def findFileByPath (path : String) : List FileNode → Option FileNode
  | [] => none
  | node :: rest =>
    if FileNode.path node = path then some node
    else
      match node with
      | FileNode.folder _ _ children =>
        match findFileByPath path children with
        | some found => some found
        | none => findFileByPath path rest
      | FileNode.file _ _ _ _ => findFileByPath path rest

/-- The mutation performed by `updateFileContent`'s `setFiles` callback
(src/App.tsx:1928-1938): locate the first node in `findFileByPath` order
with the given path and, if it is a file, replace its content; returns the
new tree and whether the search stopped (found a node of that path). -/
def setFoundFileContent (path content : String) :
    List FileNode → List FileNode × Bool
  | [] => ([], false)
  | node :: rest =>
    if FileNode.path node = path then
      match node with
      | FileNode.file n e p _ =>
        (FileNode.file n e p (some content) :: rest, true)
      | FileNode.folder _ _ _ => (node :: rest, true)
    else
      match node with
      | FileNode.folder n p children =>
        match setFoundFileContent path content children with
        | (children', true) => (FileNode.folder n p children' :: rest, true)
        | (_, false) =>
          match setFoundFileContent path content rest with
          | (rest', b) => (node :: rest', b)
      | FileNode.file _ _ _ _ =>
        match setFoundFileContent path content rest with
        | (rest', b) => (node :: rest', b)

/-- The extensions `updateFileContent` formats (src/App.tsx:1924). -/
def prettierExtensionList : List String := ["js", "ts", "tsx", "jsx", "css"]

/-- `updateFileContent` (src/App.tsx:1920-1939).  `fmt` abstracts
`formatCodeWithPrettier` (src/App.tsx:736-766), which is total: it catches
every formatting error and falls back to the original content, so the whole
operation never fails.  The guard mirrors
`fileNode && fileNode.extension && ['js','ts','tsx','jsx','css'].includes(…)`
(an empty-string extension is falsy). -/
def updateFileContent (fmt : String → String → String) (files : List FileNode)
    (path content : String) : List FileNode :=
  let finalContent :=
    match findFileByPath path files with
    | some node =>
      match FileNode.ext node with
      | some ext =>
        if ext ≠ "" ∧ ext ∈ prettierExtensionList then fmt ext content
        else content
      | none => content
    | none => content
  (setFoundFileContent path finalContent files).1

/-- The identity formatter: a concrete instance of the abstract
`formatCodeWithPrettier` model used to evaluate concrete runs. -/
def idFmt : String → String → String := fun _ content => content

/-- JavaScript `x || y` for an optional string `x`: both `undefined` and the
empty string are falsy and fall through to the fallback. -/
def jsOrElse (x : Option String) (fb : Option String) : Option String :=
  match x with
  | some s => if s = "" then fb else some s
  | none => fb

/-- JavaScript `x || y` where the fallback is a plain string. -/
def jsOrStr (x : Option String) (fb : String) : String :=
  match x with
  | some s => if s = "" then fb else s
  | none => fb

/-- Rendering of a possibly-absent value inside a template literal:
`undefined` prints as the string `"undefined"`. -/
def jsUndefStr (x : Option String) : String :=
  match x with
  | some s => s
  | none => "undefined"

/-- `updateAgentStatus` (src/App.tsx:2081-2087):
`agent.name === agentName ? { ...agent, status, task: task || (status ===
'Idle' ? undefined : agent.task) } : agent` mapped over the roster. -/
def updateAgentStatus (agents : List Agent) (agentName : String)
    (status : AgentStatus) (task : Option String) : List Agent :=
  agents.map fun agent =>
    if agent.name = agentName then
      { agent with
          status := status,
          task := jsOrElse task
            (if status = AgentStatus.Idle then none else agent.task) }
    else agent

/-- The `args` object of a plan step, with exactly the properties
`executePlan` reads: `from`, `message`, `path`, `content`
(src/App.tsx:2104-2135).  `fromAgent` is the source's `from` (a Lean
keyword).  `content := some s` models `typeof args.content === 'string'`
holding with value `s`; `none` models an absent or non-string value. -/
structure Args where
  fromAgent : Option String := none
  message : Option String := none
  path : Option String := none
  content : Option String := none
deriving DecidableEq

/-- One step of a parsed plan.  Steps arrive as untyped JSON
(`executePlan = async (plan: any[])`, src/App.tsx:2089); the interpreter
reads only `action` and `args`.  The fields `id`, `agent` and `dependencies`
are the plan-object properties named by the spec's ingestion format
(`{id, description, targetResource, agent, dependencies[]}`); they are
carried so claims about them can be stated, and the interpreter below never
consults them, exactly as in the source. -/
structure Step where
  action : String
  args : Option Args := none
  id : Option String := none
  agent : Option String := none
  dependencies : List String := []
deriving DecidableEq

/-- A JavaScript runtime exception.  The only one `executePlan` can raise is
a `TypeError` from a property access on `undefined` (`step.args.from`,
`step.args.path.match`, `step.args.path` with `step.args` absent). -/
inductive JsError where
  | typeError : JsError
deriving DecidableEq

/-- The state the plan-execution code mutates, plus the ghost field
`agentsTrace`: the history of every value assigned to the `agents` state,
`agentsTrace.head? = some` initial value.  Terminal logs and agent messages
are kept as (source, message) pairs; ids and timestamps are presentation
data. -/
structure OrchState where
  agents : List Agent
  files : List FileNode
  terminalLogs : List (String × String) := []
  agentMessages : List (String × String) := []
  agentsTrace : List (List Agent) := []

/-- Fresh state for a roster and a file tree, with the initial roster as the
first trace entry. -/
def mkState (agents : List Agent) (files : List FileNode) : OrchState :=
  { agents := agents, files := files, agentsTrace := [agents] }

/-- `addTerminalLog` (src/App.tsx:1911-1913), projected to its payload. -/
def OrchState.log (st : OrchState) (source message : String) : OrchState :=
  { st with terminalLogs := st.terminalLogs ++ [(source, message)] }

/-- `addAgentMessage` (src/App.tsx:1915-1917), projected to its payload. -/
def OrchState.agentMsg (st : OrchState) (fromName message : String) :
    OrchState :=
  { st with agentMessages := st.agentMessages ++ [(fromName, message)] }

/-- Assignment to the `agents` state; also appended to the ghost trace. -/
def OrchState.setAgents (st : OrchState) (as : List Agent) : OrchState :=
  { st with agents := as, agentsTrace := st.agentsTrace ++ [as] }

/-- A call `updateAgentStatus(n, s, t)` as a state transformer. -/
def OrchState.updStatus (st : OrchState) (n : String) (s : AgentStatus)
    (t : Option String) : OrchState :=
  st.setAgents (updateAgentStatus st.agents n s t)

/-- `s` ends with `suffix`, on the character lists of the strings (the
property the anchored regex `/\.(tsx|css|html)$/` tests, one alternative at
a time; JavaScript `$` without the `m` flag matches only at the very end of
the string). -/
def strEndsWith (s suffix : String) : Bool :=
  suffix.data.isSuffixOf s.data

/-- The agent-selection block of `executePlan` (src/App.tsx:2101-2113):
computes `(agentName, taskDescription)` from the step, or raises the
`TypeError` the source raises on a missing `args` (or, for `WRITE_FILE`, a
missing `args.path`, since `step.args.path.match` dereferences it).  The
`WRITE_FILE` branch translates the regex `/\.(tsx|css|html)$/`
(src/App.tsx:2108). -/
def agentSelect (step : Step) : Except JsError (String × String) :=
  if step.action = "SEND_MESSAGE" then
    match step.args with
    | none => Except.error JsError.typeError
    | some args =>
      Except.ok (jsOrStr args.fromAgent "Orchestrator",
        "Sending message: \"" ++ (jsOrStr args.message "").take 50 ++ "...\"")
  else if step.action = "WRITE_FILE" then
    match step.args with
    | none => Except.error JsError.typeError
    | some args =>
      match args.path with
      | none => Except.error JsError.typeError
      | some p =>
        Except.ok
          (if strEndsWith p ".tsx" || strEndsWith p ".css"
              || strEndsWith p ".html"
            then "Frontend-Dev" else "Backend-Dev",
          "Writing to file: " ++ p)
  else if step.action = "READ_FILE" then
    match step.args with
    | none => Except.error JsError.typeError
    | some args =>
      Except.ok ("Orchestrator", "Reading file: " ++ jsUndefStr args.path)
  else
    Except.ok ("Orchestrator", "")

/-- The `switch (step.action)` body of `executePlan` (src/App.tsx:2118-2135).
Called only after `agentSelect` succeeded, so for the three known actions
`args` is present (the `none` branches are unreachable there and leave the
state unchanged). -/
def execAction (fmt : String → String → String) (step : Step)
    (agentName : String) (st : OrchState) : OrchState :=
  if step.action = "SEND_MESSAGE" then
    match step.args with
    | some args =>
      match args.fromAgent, args.message with
      | some f, some m =>
        if f ≠ "" ∧ m ≠ "" then st.agentMsg f m else st
      | _, _ => st
    | none => st
  else if step.action = "WRITE_FILE" then
    match step.args with
    | some args =>
      match args.path, args.content with
      | some p, some c =>
        if p ≠ "" then
          ({ st with files := updateFileContent fmt st.files p c
            }).agentMsg agentName ("Updated " ++ p ++ ".")
        else st
      | _, _ => st
    | none => st
  else if step.action = "READ_FILE" then
    match step.args with
    | some args =>
      st.agentMsg agentName
        ("Read file " ++ jsUndefStr args.path ++ ". Acknowledged content.")
    | none => st
  else
    st.agentMsg "System" ("Unknown action: " ++ step.action)

/-- One iteration of the `for (const step of plan)` loop
(src/App.tsx:2098-2139): terminal log, agent selection, dispatch
(agent set `Active` with the task description), the action switch, agent
back to `Idle`.  A raised `TypeError` aborts the iteration where it occurs
(before dispatch, since every dereference that can fail is in the selection
block) and is returned as the second component. -/
def execStep (fmt : String → String → String) (step : Step)
    (st : OrchState) : OrchState × Option JsError :=
  match agentSelect step with
  | Except.error e =>
    (st.log "Executor" ("Executing action: " ++ step.action), some e)
  | Except.ok (agentName, taskDescription) =>
    ((execAction fmt step agentName
      (((st.log "Executor" ("Executing action: " ++ step.action)).updStatus
        agentName AgentStatus.Active (some taskDescription)))).updStatus
      agentName AgentStatus.Idle none, none)

/-- The `for` loop of `executePlan`: steps run strictly in order; an
exception short-circuits the remaining steps (there is no try/catch inside
`executePlan`). -/
def runSteps (fmt : String → String → String) :
    List Step → OrchState → OrchState × Option JsError
  | [], st => (st, none)
  | step :: rest, st =>
    match execStep fmt step st with
    | (st', none) => runSteps fmt rest st'
    | (st', some e) => (st', some e)

/-- The opening block of `executePlan` (src/App.tsx:2092-2096):
Orchestrator `Active` with its banner task, the start message, back to
`Idle`. -/
def planPrologue (st : OrchState) : OrchState :=
  ((st.updStatus "Orchestrator" AgentStatus.Active
      (some "Executing generated plan...")).agentMsg
    "Orchestrator" "Starting plan execution.").updStatus
    "Orchestrator" AgentStatus.Idle none

/-- The finalization block of `executePlan` (src/App.tsx:2141-2144). -/
def planEpilogue (st : OrchState) : OrchState :=
  ((st.updStatus "Orchestrator" AgentStatus.Active
      (some "Finalizing plan execution.")).agentMsg
    "Orchestrator" "Plan execution complete. Awaiting next instructions.").updStatus
    "Orchestrator" AgentStatus.Idle none

/-- `executePlan` (src/App.tsx:2089-2145): Orchestrator bookkeeping, the
step loop, then the finalization block — which is skipped when an exception
aborts the loop, the exception propagating to the caller. -/
def executePlan (fmt : String → String → String) (plan : List Step)
    (st : OrchState) : OrchState × Option JsError :=
  match runSteps fmt plan (planPrologue st) with
  | (st', none) => (planEpilogue st', none)
  | (st', some e) => (st', some e)

/-- The plan-acceptance check of `handleSendMessage`
(src/App.tsx:2238-2245): `if (parsed.plan && Array.isArray(parsed.plan))`
the plan is accepted as-is and executed, `else` the code throws
`"Invalid plan structure in response."`.  `some steps` models a response
whose `plan` property is an array; `none` models a missing, falsy or
non-array `plan` property.  No other validation exists. -/
def acceptPlan (parsedPlan : Option (List Step)) :
    Except String (List Step) :=
  match parsedPlan with
  | some steps => Except.ok steps
  | none => Except.error "Invalid plan structure in response."

/-- Number of roster entries currently `Active`. -/
def countActive (as : List Agent) : Nat :=
  as.countP fun a => a.status == AgentStatus.Active

/-- Every roster entry is `Idle`. -/
def allIdle (as : List Agent) : Prop :=
  ∀ a ∈ as, a.status = AgentStatus.Idle

instance (as : List Agent) : Decidable (allIdle as) :=
  inferInstanceAs (Decidable (∀ a ∈ as, a.status = AgentStatus.Idle))

/-- A quiescent roster with pairwise-distinct agent names (the fixed roster
of the source has four distinct names). -/
def rosterOk (as : List Agent) : Prop :=
  allIdle as ∧ (as.map Agent.name).Nodup

/-- Every recorded agents snapshot has at most one `Active` entry. -/
def traceBounded (tr : List (List Agent)) : Prop :=
  ∀ snap ∈ tr, countActive snap ≤ 1

/-- In every recorded snapshot, any two `Active` entries are the same agent:
no two distinct agents are ever simultaneously `Active`. -/
def noTwoAgentsActive (tr : List (List Agent)) : Prop :=
  ∀ snap ∈ tr, ∀ a ∈ snap, ∀ b ∈ snap,
    a.status = AgentStatus.Active → b.status = AgentStatus.Active →
    a.name = b.name

/-- The execution invariant: quiescent distinct-name roster between steps,
and every snapshot recorded so far has at most one `Active` agent. -/
def stInv (st : OrchState) : Prop :=
  rosterOk st.agents ∧ traceBounded st.agentsTrace

/-- The step is one of the three recognized actions with the arguments that
its handling in `executePlan` dereferences, or an unrecognized action (which
dereferences nothing).  Exactly the condition under which an iteration of
the loop cannot raise a `TypeError`. -/
def wellFormedStep (s : Step) : Bool :=
  if s.action = "SEND_MESSAGE" then s.args.isSome
  else if s.action = "WRITE_FILE" then
    match s.args with
    | some a => a.path.isSome
    | none => false
  else if s.action = "READ_FILE" then s.args.isSome
  else true

/-- A frontend write step: its path ends in `.tsx`. -/
def tsxWriteStep : Step :=
  { action := "WRITE_FILE",
    args := some { path := some "/src/App.tsx", content := some "export default App" } }

/-- A backend write step: its path ends in `.py`. -/
def pyWriteStep : Step :=
  { action := "WRITE_FILE",
    args := some { path := some "/server/main.py", content := some "x = 1" } }

/-- A well-formed chat step from the QA agent. -/
def chatStep : Step :=
  { action := "SEND_MESSAGE",
    args := some
      { fromAgent := some "QA-Tester", message := some "All tests green." } }

/-- A malformed step: `READ_FILE` with no `args` object, so the selection
block dereferences `undefined` and raises a `TypeError`. -/
def arglessReadStep : Step := { action := "READ_FILE" }

/-- A malformed step: `WRITE_FILE` whose `args` has no `path`, so
`step.args.path.match(…)` dereferences `undefined` and raises a
`TypeError`. -/
def writePathlessStep : Step :=
  { action := "WRITE_FILE", args := some { content := some "x" } }

/-- A step with an action outside the recognized set. -/
def deployStep : Step := { action := "DEPLOY", args := some {} }

/-- A write step declaring a dependency on task id "1" in a plan that
contains no task with that id. -/
def danglingDepStep : Step :=
  { action := "WRITE_FILE",
    args := some { path := some "/server/main.py", content := some "x = 1" },
    id := some "2", agent := some "Backend-Dev", dependencies := ["1"] }

/-- A plan violating all three ingestion conditions of the spec at once:
the two steps share id "1", name agents outside the fixed roster, and
declare dependencies on ids ("7", "99") present nowhere in the plan. -/
def invalidPlan : List Step :=
  [ { action := "SEND_MESSAGE",
      args := some
        { fromAgent := some "Mystery-Agent", message := some "hi" },
      id := some "1", agent := some "Mystery-Agent", dependencies := ["7"] },
    { action := "WRITE_FILE",
      args := some { path := some "/styles/a.css", content := some "body color" },
      id := some "1", agent := some "Ghost-Agent",
      dependencies := ["99"] } ]

/-- C10: `updateAgentStatus(agentName, status, task)` leaves every roster
entry whose name differs from `agentName` unchanged (positionally), and when
`status` is `Idle` with no task argument it clears the named agent's `task`
field (and sets its status to `Idle`). -/
theorem c10_updateAgentStatus_frame (agents : List Agent) (agentName : String)
    (status : AgentStatus) (task : Option String) :
    (updateAgentStatus agents agentName status task).length = agents.length
    ∧ (∀ i (hi : i < agents.length)
        (hi' : i < (updateAgentStatus agents agentName status task).length),
        (agents.get ⟨i, hi⟩).name ≠ agentName →
        (updateAgentStatus agents agentName status task).get ⟨i, hi'⟩ =
          agents.get ⟨i, hi⟩)
    ∧ (status = AgentStatus.Idle → task = none →
        ∀ a ∈ updateAgentStatus agents agentName status task,
          a.name = agentName →
          a.task = none ∧ a.status = AgentStatus.Idle) := by
  refine ⟨by simp [updateAgentStatus], ?_, ?_⟩
  · intro i hi hi' hname
    simp only [updateAgentStatus, List.get_eq_getElem, List.getElem_map]
    simp only [List.get_eq_getElem] at hname
    rw [if_neg hname]
  · rintro rfl rfl a ha hname
    simp only [updateAgentStatus, List.mem_map] at ha
    obtain ⟨b, _, rfl⟩ := ha
    by_cases hb : b.name = agentName
    · simp [hb, jsOrElse]
    · simp only [if_neg hb] at hname ⊢
      exact absurd hname hb

/-- Witness for C10 at a concrete roster. -/
theorem c10_updateAgentStatus_frame_witness :
    (updateAgentStatus initialAgents "Orchestrator" AgentStatus.Idle
        none).length = initialAgents.length
    ∧ (∀ i (hi : i < initialAgents.length)
        (hi' : i < (updateAgentStatus initialAgents "Orchestrator"
          AgentStatus.Idle none).length),
        (initialAgents.get ⟨i, hi⟩).name ≠ "Orchestrator" →
        (updateAgentStatus initialAgents "Orchestrator" AgentStatus.Idle
          none).get ⟨i, hi'⟩ = initialAgents.get ⟨i, hi⟩)
    ∧ (AgentStatus.Idle = AgentStatus.Idle → (none : Option String) = none →
        ∀ a ∈ updateAgentStatus initialAgents "Orchestrator"
          AgentStatus.Idle none,
          a.name = "Orchestrator" →
          a.task = none ∧ a.status = AgentStatus.Idle) :=
  c10_updateAgentStatus_frame initialAgents "Orchestrator"
    AgentStatus.Idle none

/-- `updateAgentStatus` never changes the list of agent names. -/
theorem updateAgentStatus_map_name (as : List Agent) (n : String)
    (s : AgentStatus) (t : Option String) :
    (updateAgentStatus as n s t).map Agent.name = as.map Agent.name := by
  unfold updateAgentStatus
  rw [List.map_map]
  refine List.map_congr_left fun a _ => ?_
  by_cases h : a.name = n <;> simp [Function.comp, h]

/-- An all-`Idle` roster has no `Active` entry. -/
theorem countActive_eq_zero (as : List Agent) (h : allIdle as) :
    countActive as = 0 := by
  unfold countActive
  rw [List.countP_eq_zero]
  intro a ha
  simp [h a ha]

/-- Updating an agent absent from the roster is the identity. -/
theorem updateAgentStatus_id (as : List Agent) (n : String) (s : AgentStatus)
    (t : Option String) (h : ∀ a ∈ as, a.name ≠ n) :
    updateAgentStatus as n s t = as := by
  unfold updateAgentStatus
  conv_rhs => rw [← List.map_id as]
  refine List.map_congr_left fun a ha => ?_
  simp [h a ha]

/-- `updateAgentStatus` on a cons. -/
theorem updateAgentStatus_cons (a : Agent) (tl : List Agent) (n : String)
    (s : AgentStatus) (t : Option String) :
    updateAgentStatus (a :: tl) n s t =
      (if a.name = n then
        { a with
            status := s,
            task := jsOrElse t
              (if s = AgentStatus.Idle then none else a.task) }
      else a) :: updateAgentStatus tl n s t := rfl

/-- `countActive` on a cons. -/
theorem countActive_cons (x : Agent) (l : List Agent) :
    countActive (x :: l) =
      countActive l + if x.status = AgentStatus.Active then 1 else 0 := by
  unfold countActive
  rw [List.countP_cons]
  congr 1
  by_cases h : x.status = AgentStatus.Active <;> simp [h]

/-- Setting one agent of a quiescent distinct-name roster `Active` yields at
most one `Active` entry. -/
theorem countActive_updateActive : ∀ (as : List Agent), rosterOk as →
    ∀ (n : String) (t : Option String),
    countActive (updateAgentStatus as n AgentStatus.Active t) ≤ 1
  | [], _, _, _ => by simp [updateAgentStatus, countActive]
  | a :: tl, ⟨hIdle, hNodup⟩, n, t => by
    have haIdle : a.status = AgentStatus.Idle := hIdle a (by simp)
    have htlIdle : allIdle tl := fun b hb => hIdle b (by simp [hb])
    rw [List.map_cons, List.nodup_cons] at hNodup
    obtain ⟨hnotin, hNodup'⟩ := hNodup
    rw [updateAgentStatus_cons, countActive_cons]
    by_cases han : a.name = n
    · rw [if_pos han]
      have htl : updateAgentStatus tl n AgentStatus.Active t = tl := by
        refine updateAgentStatus_id tl n _ t fun b hb hbn => hnotin ?_
        rw [← han, ← hbn] at *
        exact List.mem_map_of_mem Agent.name hb
      rw [htl, countActive_eq_zero tl htlIdle]
      simp
    · rw [if_neg han]
      have h1 := countActive_updateActive tl ⟨htlIdle, hNodup'⟩ n t
      rw [haIdle]
      simpa using h1

/-- Setting an agent `Idle` on a roster whose other entries are all `Idle`
leaves an all-`Idle` roster. -/
theorem allIdle_updateIdle (as : List Agent) (n : String) (t : Option String)
    (h : ∀ a ∈ as, a.name ≠ n → a.status = AgentStatus.Idle) :
    allIdle (updateAgentStatus as n AgentStatus.Idle t) := by
  intro x hx
  unfold updateAgentStatus at hx
  rw [List.mem_map] at hx
  obtain ⟨b, hb, rfl⟩ := hx
  by_cases hbn : b.name = n
  · simp [hbn]
  · simp only [if_neg hbn]
    exact h b hb hbn

/-- After setting one agent of an all-`Idle` roster `Active`, every other
agent is still `Idle`. -/
theorem updateActive_others_idle (as : List Agent) (n : String)
    (t : Option String) (h : allIdle as) :
    ∀ x ∈ updateAgentStatus as n AgentStatus.Active t,
      x.name ≠ n → x.status = AgentStatus.Idle := by
  intro x hx hxn
  unfold updateAgentStatus at hx
  rw [List.mem_map] at hx
  obtain ⟨b, hb, rfl⟩ := hx
  by_cases hbn : b.name = n
  · rw [if_pos hbn] at hxn
    exact absurd hbn hxn
  · rw [if_neg hbn] at hxn ⊢
    exact h b hb

/-- Logging touches neither the roster nor the trace. -/
theorem stInv_log (st : OrchState) (a b : String) (h : stInv st) :
    stInv (st.log a b) := h

/-- An agent message touches neither the roster nor the trace. -/
theorem stInv_agentMsg (st : OrchState) (a b : String) (h : stInv st) :
    stInv (st.agentMsg a b) := h

/-- The action switch never assigns the `agents` state. -/
theorem execAction_agents (fmt : String → String → String) (s : Step)
    (n : String) (st : OrchState) :
    (execAction fmt s n st).agents = st.agents := by
  unfold execAction
  repeat' split
  all_goals rfl

/-- The action switch records no agents snapshot. -/
theorem execAction_trace (fmt : String → String → String) (s : Step)
    (n : String) (st : OrchState) :
    (execAction fmt s n st).agentsTrace = st.agentsTrace := by
  unfold execAction
  repeat' split
  all_goals rfl

/-- A dispatch cycle — agent set `Active`, any roster-preserving work `g`,
agent back to `Idle` — preserves the execution invariant; the two snapshots
it records are bounded by one `Active` entry. -/
theorem stInv_cycle (st : OrchState) (n d : String)
    (g : OrchState → OrchState)
    (hg1 : ∀ s, (g s).agents = s.agents)
    (hg2 : ∀ s, (g s).agentsTrace = s.agentsTrace)
    (h : stInv st) :
    stInv ((g (st.updStatus n AgentStatus.Active (some d))).updStatus
      n AgentStatus.Idle none) := by
  obtain ⟨⟨hIdle, hNodup⟩, hTr⟩ := h
  have hga : (g (st.updStatus n AgentStatus.Active (some d))).agents =
      updateAgentStatus st.agents n AgentStatus.Active (some d) := by
    rw [hg1]; rfl
  have hgt : (g (st.updStatus n AgentStatus.Active (some d))).agentsTrace =
      st.agentsTrace ++
        [updateAgentStatus st.agents n AgentStatus.Active (some d)] := by
    rw [hg2]; rfl
  have hAllIdle : allIdle (updateAgentStatus
      (updateAgentStatus st.agents n AgentStatus.Active (some d))
      n AgentStatus.Idle none) :=
    allIdle_updateIdle _ n none
      (updateActive_others_idle st.agents n (some d) hIdle)
  refine ⟨⟨?_, ?_⟩, ?_⟩
  · show allIdle (updateAgentStatus
      (g (st.updStatus n AgentStatus.Active (some d))).agents
      n AgentStatus.Idle none)
    rw [hga]
    exact hAllIdle
  · show ((updateAgentStatus
      (g (st.updStatus n AgentStatus.Active (some d))).agents
      n AgentStatus.Idle none).map Agent.name).Nodup
    rw [updateAgentStatus_map_name, hga, updateAgentStatus_map_name]
    exact hNodup
  · show traceBounded
      ((g (st.updStatus n AgentStatus.Active (some d))).agentsTrace ++
        [updateAgentStatus
          (g (st.updStatus n AgentStatus.Active (some d))).agents
          n AgentStatus.Idle none])
    rw [hgt, hga]
    intro snap hsnap
    rcases List.mem_append.mp hsnap with hsnap' | hsnap'
    · rcases List.mem_append.mp hsnap' with hold | hnew
      · exact hTr snap hold
      · rw [List.mem_singleton.mp hnew]
        exact countActive_updateActive st.agents ⟨hIdle, hNodup⟩ n (some d)
    · rw [List.mem_singleton.mp hsnap']
      rw [countActive_eq_zero _ hAllIdle]
      omega

/-- Each loop iteration preserves the execution invariant, also when it
raises. -/
theorem execStep_stInv (fmt : String → String → String) (s : Step)
    (st : OrchState) (h : stInv st) : stInv (execStep fmt s st).1 := by
  unfold execStep
  cases hsel : agentSelect s with
  | error e => exact stInv_log st "Executor" _ h
  | ok nd =>
    obtain ⟨n, d⟩ := nd
    exact stInv_cycle (st.log "Executor" ("Executing action: " ++ s.action))
      n d (execAction fmt s n) (fun s' => execAction_agents fmt s n s')
      (fun s' => execAction_trace fmt s n s')
      (stInv_log st "Executor" _ h)

/-- The step loop preserves the execution invariant. -/
theorem runSteps_stInv (fmt : String → String → String) :
    ∀ (steps : List Step) (st : OrchState), stInv st →
    stInv (runSteps fmt steps st).1
  | [], _, h => h
  | s :: rest, st, h => by
    unfold runSteps
    have hs := execStep_stInv fmt s st h
    rcases hE : execStep fmt s st with ⟨st', e⟩
    rw [hE] at hs
    cases e with
    | none => exact runSteps_stInv fmt rest st' hs
    | some e => exact hs

/-- `executePlan` preserves the execution invariant from any state
satisfying it, whether or not it aborts. -/
theorem executePlan_stInv (fmt : String → String → String)
    (plan : List Step) (st : OrchState) (h : stInv st) :
    stInv (executePlan fmt plan st).1 := by
  unfold executePlan
  have h1 : stInv (planPrologue st) :=
    stInv_cycle st "Orchestrator" "Executing generated plan..."
      (fun x => x.agentMsg "Orchestrator" "Starting plan execution.")
      (fun _ => rfl) (fun _ => rfl) h
  have h2 := runSteps_stInv fmt plan (planPrologue st) h1
  rcases hR : runSteps fmt plan (planPrologue st) with ⟨st', e⟩
  rw [hR] at h2
  cases e with
  | none =>
    exact stInv_cycle st' "Orchestrator" "Finalizing plan execution."
      (fun x => x.agentMsg "Orchestrator"
        "Plan execution complete. Awaiting next instructions.")
      (fun _ => rfl) (fun _ => rfl) h2
  | some e => exact h2

/-- On a well-formed step, agent selection cannot raise. -/
theorem agentSelect_ok (s : Step) (h : wellFormedStep s = true) :
    ∃ nd, agentSelect s = Except.ok nd := by
  unfold wellFormedStep at h
  unfold agentSelect
  split_ifs at h ⊢ with h1 h2 h3
  · cases ha : s.args with
    | none => rw [ha] at h; simp at h
    | some a => exact ⟨_, rfl⟩
  · cases ha : s.args with
    | none => rw [ha] at h; simp at h
    | some a =>
      rw [ha] at h
      obtain ⟨af, am, ap, ac⟩ := a
      cases ap with
      | none => simp at h
      | some p => exact ⟨_, rfl⟩
  · cases ha : s.args with
    | none => rw [ha] at h; simp at h
    | some a => exact ⟨_, rfl⟩
  · exact ⟨_, rfl⟩

/-- A well-formed step never raises. -/
theorem execStep_no_error (fmt : String → String → String) (s : Step)
    (st : OrchState) (h : wellFormedStep s = true) :
    (execStep fmt s st).2 = none := by
  obtain ⟨nd, hnd⟩ := agentSelect_ok s h
  obtain ⟨n, d⟩ := nd
  unfold execStep
  rw [hnd]

/-- When a step does not raise, the loop continues with the remaining steps
from the state the step produced. -/
theorem runSteps_cons_ok (fmt : String → String → String) (s : Step)
    (rest : List Step) (st : OrchState)
    (h : (execStep fmt s st).2 = none) :
    runSteps fmt (s :: rest) st = runSteps fmt rest (execStep fmt s st).1 := by
  rcases hE : execStep fmt s st with ⟨st', e⟩
  rw [hE] at h
  simp only at h
  subst h
  conv_lhs => rw [runSteps]
  rw [hE]

/-- A plan of well-formed steps runs to the end without raising. -/
theorem runSteps_no_error (fmt : String → String → String) :
    ∀ (steps : List Step) (st : OrchState),
    (∀ s ∈ steps, wellFormedStep s = true) →
    (runSteps fmt steps st).2 = none
  | [], _, _ => rfl
  | s :: rest, st, h => by
    rw [runSteps_cons_ok fmt s rest st
      (execStep_no_error fmt s st (h s (by simp)))]
    exact runSteps_no_error fmt rest _ fun b hb => h b (by simp [hb])

/-- A list with at most one element satisfying `p` cannot contain two
different elements satisfying `p`. -/
theorem countP_le_one_unique {α : Type} (p : α → Bool) :
    ∀ (l : List α), l.countP p ≤ 1 →
    ∀ a ∈ l, ∀ b ∈ l, p a = true → p b = true → a = b
  | [], _, a, ha, _, _, _, _ => absurd ha (List.not_mem_nil a)
  | x :: xs, h, a, ha, b, hb, hpa, hpb => by
    rw [List.countP_cons] at h
    have hzero : xs.countP p = 0 → ∀ c ∈ xs, p c = true → False := by
      intro h0 c hc hpc
      exact (List.countP_eq_zero.mp h0) c hc (by simp [hpc])
    rcases List.mem_cons.mp ha with rfl | ha' <;>
      rcases List.mem_cons.mp hb with rfl | hb'
    · rfl
    · exfalso
      rw [if_pos hpa] at h
      exact hzero (by omega) b hb' hpb
    · exfalso
      rw [if_pos hpb] at h
      exact hzero (by omega) a ha' hpa
    · exact countP_le_one_unique p xs (by omega) a ha' b hb' hpa hpb

/-- `strEndsWith` is exactly the suffix property on character lists. -/
theorem strEndsWith_iff (s suf : String) :
    strEndsWith s suf = true ↔ ∃ q, q ++ suf.data = s.data := by
  unfold strEndsWith
  rw [List.isSuffixOf_iff_suffix]
  exact Iff.rfl

/-- A step's execution is unchanged by an arbitrary rewrite of the
`dependencies` fields: the interpreter never reads them. -/
theorem runSteps_ignores_dependencies (fmt : String → String → String)
    (f : Step → List String) :
    ∀ (plan : List Step) (st : OrchState),
    runSteps fmt (plan.map fun s => { s with dependencies := f s }) st =
      runSteps fmt plan st
  | [], _ => rfl
  | s :: rest, st => by
    have hstep : execStep fmt { s with dependencies := f s } st =
        execStep fmt s st := rfl
    rw [List.map_cons]
    conv_lhs => rw [runSteps]
    conv_rhs => rw [runSteps]
    rw [hstep]
    rcases hE : execStep fmt s st with ⟨st', e⟩
    cases e with
    | none => exact runSteps_ignores_dependencies fmt f rest st'
    | some e => rfl

/-- A quiescent distinct-name roster yields an initial state satisfying the
execution invariant. -/
theorem stInv_mkState (agents0 : List Agent) (files : List FileNode)
    (h1 : allIdle agents0) (h2 : (agents0.map Agent.name).Nodup) :
    stInv (mkState agents0 files) := by
  refine ⟨⟨h1, h2⟩, ?_⟩
  intro snap hsnap
  have hs : snap = agents0 := by simpa [mkState] using hsnap
  rw [hs, countActive_eq_zero agents0 h1]
  omega

/-- On a plan of well-formed steps, `executePlan` returns normally. -/
theorem executePlan_no_error (fmt : String → String → String)
    (plan : List Step) (st : OrchState)
    (h : ∀ s ∈ plan, wellFormedStep s = true) :
    (executePlan fmt plan st).2 = none := by
  unfold executePlan
  have h2 := runSteps_no_error fmt plan (planPrologue st) h
  rcases hR : runSteps fmt plan (planPrologue st) with ⟨st', e⟩
  rw [hR] at h2
  simp only at h2
  subst h2
  rfl

/-- On a plan of well-formed steps, `executePlan` reports the unconditional
completion message. -/
theorem executePlan_complete_msg (fmt : String → String → String)
    (plan : List Step) (st : OrchState)
    (h : ∀ s ∈ plan, wellFormedStep s = true) :
    ("Orchestrator", "Plan execution complete. Awaiting next instructions.")
      ∈ (executePlan fmt plan st).1.agentMessages := by
  unfold executePlan
  have h2 := runSteps_no_error fmt plan (planPrologue st) h
  rcases hR : runSteps fmt plan (planPrologue st) with ⟨st', e⟩
  rw [hR] at h2
  simp only at h2
  subst h2
  show ("Orchestrator", _) ∈ (planEpilogue st').agentMessages
  simp [planEpilogue, OrchState.agentMsg, OrchState.updStatus,
    OrchState.setAgents]

/-- C1, counterexample: `executePlan` dispatches a task into execution
(its agent goes `Active` on it) even though the task's `dependencies` list
names id "1", which is the id of no task in the plan — so that dependency is
in particular not a `Completed` task of the plan at the dispatch instant,
refuting "transitions into `Executing` only if every id listed in its
dependencies has state `Completed`". -/
theorem c1_dependency_gating_counterexample :
    ((executePlan idFmt [danglingDepStep]
        (mkState initialAgents [])).1.agentsTrace.any fun snap =>
      snap.any fun a =>
        a.name == "Backend-Dev" && a.status == AgentStatus.Active
          && a.task == some "Writing to file: /server/main.py") = true
    ∧ (danglingDepStep.dependencies.all fun d =>
        [danglingDepStep].any fun t => t.id == some d) = false := by
  constructor <;> decide

/-- C1, amended: `executePlan` executes every step unconditionally in plan
order and never reads the `dependencies` field — the whole run is invariant
under an arbitrary rewrite of every step's dependencies — so a task enters
execution regardless of whether its declared dependencies are completed or
even exist. -/
theorem c1_dependencies_never_consulted (fmt : String → String → String)
    (f : Step → List String) (plan : List Step) (st : OrchState) :
    executePlan fmt (plan.map fun s => { s with dependencies := f s }) st =
      executePlan fmt plan st := by
  unfold executePlan
  rw [runSteps_ignores_dependencies fmt f plan (planPrologue st)]

/-- C2, counterexample: a plan whose two steps share id "1", name agents
outside the fixed roster, and declare dependencies ("7", "99") matching no
task id in the plan is nevertheless accepted by the ingestion check and
executed — its effects (terminal logs) become visible to observers — instead
of being rejected wholesale with a `PlanningFailure`. -/
theorem c2_ingestion_counterexample :
    acceptPlan (some invalidPlan) = Except.ok invalidPlan
    ∧ ((invalidPlan.map Step.id).Nodup = false)
    ∧ (invalidPlan.all fun s =>
        (initialAgents.map Agent.name).any fun n => s.agent == some n) = false
    ∧ (invalidPlan.all fun s => s.dependencies.all fun d =>
        invalidPlan.any fun t => t.id == some d) = false
    ∧ (executePlan idFmt invalidPlan
        (mkState initialAgents [])).1.terminalLogs ≠ [] := by
  refine ⟨rfl, by decide, by decide, by decide, by decide⟩

/-- C2, amended: plan ingestion checks only that the parsed response has a
`plan` field holding an array; every such plan — regardless of id
collisions, unknown agent names or dangling dependency ids — is accepted
as-is, and only a missing or non-array `plan` field is rejected. -/
theorem c2_ingestion_checks_only_array_shape (p : Option (List Step))
    (steps : List Step) :
    acceptPlan p = Except.ok steps ↔ p = some steps := by
  cases p <;> simp [acceptPlan]

/-- C4, counterexample: a single malformed step (a `WRITE_FILE` whose `args`
has no `path`) raises a `TypeError` that terminates the loop abnormally: the
run ends with the exception, the following well-formed step is never
executed (its message is absent and its iteration is never even logged), so
the loop does not proceed to drive the remaining tasks. -/
theorem c4_single_failure_aborts_loop_counterexample :
    (executePlan idFmt [writePathlessStep, chatStep]
      (mkState initialAgents [])).2 = some JsError.typeError
    ∧ ("QA-Tester", "All tests green.") ∉
        (executePlan idFmt [writePathlessStep, chatStep]
          (mkState initialAgents [])).1.agentMessages
    ∧ (executePlan idFmt [writePathlessStep, chatStep]
        (mkState initialAgents [])).1.terminalLogs =
      [("Executor", "Executing action: WRITE_FILE")] := by
  refine ⟨by decide, by decide, by decide⟩

/-- C4, amended: the only task-level failure the code can produce is a
`TypeError` from a malformed step, and it aborts `executePlan` (the
exception is caught only outside the loop, in `handleSendMessage`); on a
plan whose steps are all well-formed no step can fail — executor formatting
errors are swallowed — and the loop never terminates abnormally. -/
theorem c4_wellformed_plan_never_aborts (fmt : String → String → String)
    (plan : List Step) (st : OrchState)
    (h : ∀ s ∈ plan, wellFormedStep s = true) :
    (executePlan fmt plan st).2 = none :=
  executePlan_no_error fmt plan st h

/-- Witness for C4 (amended) on a concrete two-step plan. -/
theorem c4_wellformed_plan_never_aborts_witness :
    (executePlan idFmt [tsxWriteStep, chatStep]
      (mkState initialAgents [])).2 = none :=
  c4_wellformed_plan_never_aborts idFmt [tsxWriteStep, chatStep]
    (mkState initialAgents []) (by decide)

/-- C5: starting from a quiescent roster of distinct agent names, every
agents snapshot recorded during any run of `executePlan` has at most one
`Active` entry — in particular, at most one task owned by any given agent is
being executed at any instant (the source represents "owns an Executing
task" as the owner being `Active` on that task; `Active` is the code's name
for the spec's `Working`). -/
theorem c5_agent_exclusivity (fmt : String → String → String)
    (plan : List Step) (agents0 : List Agent) (files : List FileNode)
    (h1 : allIdle agents0) (h2 : (agents0.map Agent.name).Nodup) :
    traceBounded
      (executePlan fmt plan (mkState agents0 files)).1.agentsTrace :=
  (executePlan_stInv fmt plan (mkState agents0 files)
    (stInv_mkState agents0 files h1 h2)).2

/-- Witness for C5 on a concrete two-agent plan. -/
theorem c5_agent_exclusivity_witness :
    traceBounded
      (executePlan idFmt [tsxWriteStep, pyWriteStep]
        (mkState initialAgents [])).1.agentsTrace :=
  c5_agent_exclusivity idFmt [tsxWriteStep, pyWriteStep] initialAgents []
    (by decide) (by decide)

/-- C6, counterexample: a finite plan with no dependency edges (trivially
acyclic) whose executor is never invoked (so all its executor invocations
terminate, vacuously) on which `executePlan` terminates abnormally with a
`TypeError` and never reports a terminal summary — the completion message is
absent — refuting "halts … and reports success … and failure-with-details
otherwise". -/
theorem c6_no_terminal_report_counterexample :
    (executePlan idFmt [arglessReadStep]
      (mkState initialAgents [])).2 = some JsError.typeError
    ∧ ("Orchestrator",
        "Plan execution complete. Awaiting next instructions.") ∉
        (executePlan idFmt [arglessReadStep]
          (mkState initialAgents [])).1.agentMessages := by
  refine ⟨by decide, by decide⟩

/-- C6, amended: for every finite plan all of whose steps are well-formed,
`executePlan` halts (it is a total function of the plan) with no exception,
in a state where every agent is `Idle` (nothing is still executing), and
reports the completion message; the code has no `Failed` or `Blocked` task
states, so the report is unconditional rather than success/failure-branching,
and a malformed step instead aborts the run with no terminal report. -/
theorem c6_wellformed_plan_terminates_quiescent (fmt : String → String → String)
    (plan : List Step) (agents0 : List Agent) (files : List FileNode)
    (hw : ∀ s ∈ plan, wellFormedStep s = true)
    (h1 : allIdle agents0) (h2 : (agents0.map Agent.name).Nodup) :
    (executePlan fmt plan (mkState agents0 files)).2 = none
    ∧ allIdle (executePlan fmt plan (mkState agents0 files)).1.agents
    ∧ ("Orchestrator",
        "Plan execution complete. Awaiting next instructions.") ∈
        (executePlan fmt plan (mkState agents0 files)).1.agentMessages :=
  ⟨executePlan_no_error fmt plan (mkState agents0 files) hw,
    (executePlan_stInv fmt plan (mkState agents0 files)
      (stInv_mkState agents0 files h1 h2)).1.1,
    executePlan_complete_msg fmt plan (mkState agents0 files) hw⟩

/-- Witness for C6 (amended) on a concrete plan. -/
theorem c6_wellformed_plan_terminates_quiescent_witness :
    (executePlan idFmt [chatStep, pyWriteStep]
      (mkState initialAgents [])).2 = none
    ∧ allIdle (executePlan idFmt [chatStep, pyWriteStep]
        (mkState initialAgents [])).1.agents
    ∧ ("Orchestrator",
        "Plan execution complete. Awaiting next instructions.") ∈
        (executePlan idFmt [chatStep, pyWriteStep]
          (mkState initialAgents [])).1.agentMessages :=
  c6_wellformed_plan_terminates_quiescent idFmt [chatStep, pyWriteStep]
    initialAgents [] (by decide) (by decide) (by decide)

/-- C7, counterexample: on a plan of two independent write steps owned by
two different agents (`Frontend-Dev` and `Backend-Dev`), both steps are
executed (both completion messages appear), yet in no recorded snapshot are
the two agents simultaneously `Active`: their executing windows never
overlap, because the loop awaits each step before dispatching the next —
refuting "dispatches both without blocking … overlapping Executing
windows". -/
theorem c7_no_overlap_counterexample :
    (("Frontend-Dev", "Updated /src/App.tsx.") ∈
        (executePlan idFmt [tsxWriteStep, pyWriteStep]
          (mkState initialAgents [])).1.agentMessages)
    ∧ (("Backend-Dev", "Updated /server/main.py.") ∈
        (executePlan idFmt [tsxWriteStep, pyWriteStep]
          (mkState initialAgents [])).1.agentMessages)
    ∧ ((executePlan idFmt [tsxWriteStep, pyWriteStep]
        (mkState initialAgents [])).1.agentsTrace.all fun snap =>
      !((snap.any fun a =>
          a.name == "Frontend-Dev" && a.status == AgentStatus.Active)
        && (snap.any fun a =>
          a.name == "Backend-Dev" && a.status == AgentStatus.Active)))
      = true := by
  refine ⟨by decide, by decide, by decide⟩

/-- C7, amended: `executePlan` is strictly sequential — it awaits each
dispatched step before dispatching the next — so starting from a quiescent
distinct-name roster, no two distinct agents are ever `Active` in the same
recorded snapshot: tasks on different agents never have overlapping
executing windows. -/
theorem c7_no_two_agents_active (fmt : String → String → String)
    (plan : List Step) (agents0 : List Agent) (files : List FileNode)
    (h1 : allIdle agents0) (h2 : (agents0.map Agent.name).Nodup) :
    noTwoAgentsActive
      (executePlan fmt plan (mkState agents0 files)).1.agentsTrace := by
  intro snap hsnap a ha b hb hA hB
  have hbd : countActive snap ≤ 1 :=
    (executePlan_stInv fmt plan (mkState agents0 files)
      (stInv_mkState agents0 files h1 h2)).2 snap hsnap
  have hab : a = b :=
    countP_le_one_unique _ snap hbd a ha b hb (by simp [hA]) (by simp [hB])
  rw [hab]

/-- Witness for C7 (amended) on a concrete two-agent plan. -/
theorem c7_no_two_agents_active_witness :
    noTwoAgentsActive
      (executePlan idFmt [pyWriteStep, tsxWriteStep]
        (mkState initialAgents [])).1.agentsTrace :=
  c7_no_two_agents_active idFmt [pyWriteStep, tsxWriteStep] initialAgents []
    (by decide) (by decide)

/-- C8: for a `WRITE_FILE` step carrying a path, the dispatch assigns
`Frontend-Dev` exactly when the path ends in `.tsx`, `.css` or `.html` (as a
character-list suffix) and `Backend-Dev` otherwise, with the task
description built from the path; the `agent` field carried in the plan (and
the other plan-metadata fields) are never consulted. -/
theorem c8_write_file_agent_from_path (s : Step) (a : Args) (p : String)
    (h1 : s.action = "WRITE_FILE") (h2 : s.args = some a)
    (h3 : a.path = some p) :
    ∃ ag : String,
      agentSelect s = Except.ok (ag, "Writing to file: " ++ p)
      ∧ (ag = "Frontend-Dev" ∨ ag = "Backend-Dev")
      ∧ (ag = "Frontend-Dev" ↔
          (∃ q, q ++ ".tsx".data = p.data) ∨ (∃ q, q ++ ".css".data = p.data)
            ∨ (∃ q, q ++ ".html".data = p.data))
      ∧ ∀ idv agv deps,
          agentSelect
            { s with id := idv, agent := agv, dependencies := deps } =
            agentSelect s := by
  obtain ⟨af, am, ap, ac⟩ := a
  have hap : ap = some p := h3
  subst hap
  refine ⟨if strEndsWith p ".tsx" || strEndsWith p ".css"
      || strEndsWith p ".html" then "Frontend-Dev" else "Backend-Dev",
    ?_, ?_, ?_, ?_⟩
  · unfold agentSelect
    rw [if_neg (by rw [h1]; decide), if_pos h1, h2]
  · by_cases hc : (strEndsWith p ".tsx" || strEndsWith p ".css"
        || strEndsWith p ".html") = true
    · rw [if_pos hc]
      exact Or.inl rfl
    · rw [if_neg hc]
      exact Or.inr rfl
  · by_cases hc : (strEndsWith p ".tsx" || strEndsWith p ".css"
        || strEndsWith p ".html") = true
    · rw [if_pos hc]
      refine iff_of_true rfl ?_
      simp only [Bool.or_eq_true] at hc
      rcases hc with (h | h) | h
      · exact Or.inl ((strEndsWith_iff p ".tsx").mp h)
      · exact Or.inr (Or.inl ((strEndsWith_iff p ".css").mp h))
      · exact Or.inr (Or.inr ((strEndsWith_iff p ".html").mp h))
    · rw [if_neg hc]
      refine iff_of_false (by decide) ?_
      intro hd
      apply hc
      simp only [Bool.or_eq_true]
      rcases hd with h | h | h
      · exact Or.inl (Or.inl ((strEndsWith_iff p ".tsx").mpr h))
      · exact Or.inl (Or.inr ((strEndsWith_iff p ".css").mpr h))
      · exact Or.inr ((strEndsWith_iff p ".html").mpr h)
  · intro idv agv deps
    rfl

/-- Witness for C8 at a concrete frontend write step. -/
theorem c8_write_file_agent_from_path_witness :
    ∃ ag : String,
      agentSelect tsxWriteStep =
        Except.ok (ag, "Writing to file: " ++ "/src/App.tsx")
      ∧ (ag = "Frontend-Dev" ∨ ag = "Backend-Dev")
      ∧ (ag = "Frontend-Dev" ↔
          (∃ q, q ++ ".tsx".data = "/src/App.tsx".data)
            ∨ (∃ q, q ++ ".css".data = "/src/App.tsx".data)
            ∨ (∃ q, q ++ ".html".data = "/src/App.tsx".data))
      ∧ ∀ idv agv deps,
          agentSelect
            { tsxWriteStep with
                id := idv, agent := agv, dependencies := deps } =
            agentSelect tsxWriteStep :=
  c8_write_file_agent_from_path tsxWriteStep
    { path := some "/src/App.tsx", content := some "export default App" }
    "/src/App.tsx" rfl rfl rfl

/-- C9: a step whose action is none of `SEND_MESSAGE`, `WRITE_FILE`,
`READ_FILE` leaves the file tree unchanged, records the
"Unknown action" message from `System`, raises nothing, and the loop
continues with all remaining steps from the state this step produced. -/
theorem c9_unknown_action_skipped_loop_continues
    (fmt : String → String → String) (s : Step) (rest : List Step)
    (st : OrchState)
    (h1 : s.action ≠ "SEND_MESSAGE") (h2 : s.action ≠ "WRITE_FILE")
    (h3 : s.action ≠ "READ_FILE") :
    (execStep fmt s st).1.files = st.files
    ∧ ("System", "Unknown action: " ++ s.action) ∈
        (execStep fmt s st).1.agentMessages
    ∧ (execStep fmt s st).2 = none
    ∧ runSteps fmt (s :: rest) st =
        runSteps fmt rest (execStep fmt s st).1 := by
  have hsel : agentSelect s = Except.ok ("Orchestrator", "") := by
    unfold agentSelect
    rw [if_neg h1, if_neg h2, if_neg h3]
  have hact : ∀ x : OrchState, execAction fmt s "Orchestrator" x =
      x.agentMsg "System" ("Unknown action: " ++ s.action) := by
    intro x
    unfold execAction
    rw [if_neg h1, if_neg h2, if_neg h3]
  have hstep : execStep fmt s st =
      ((((st.log "Executor"
            ("Executing action: " ++ s.action)).updStatus
          "Orchestrator" AgentStatus.Active (some "")).agentMsg
          "System" ("Unknown action: " ++ s.action)).updStatus
        "Orchestrator" AgentStatus.Idle none, none) := by
    unfold execStep
    rw [hsel]
    show ((execAction fmt s "Orchestrator"
        ((st.log "Executor" ("Executing action: " ++ s.action)).updStatus
          "Orchestrator" AgentStatus.Active (some ""))).updStatus
      "Orchestrator" AgentStatus.Idle none, none) = _
    rw [hact]
  refine ⟨?_, ?_, ?_, ?_⟩
  · rw [hstep]
    rfl
  · rw [hstep]
    show ("System", "Unknown action: " ++ s.action) ∈
      st.agentMessages ++ [("System", "Unknown action: " ++ s.action)]
    simp
  · rw [hstep]
  · exact runSteps_cons_ok fmt s rest st (by rw [hstep])

/-- Witness for C9 at a concrete unrecognized action. -/
theorem c9_unknown_action_skipped_loop_continues_witness :
    (execStep idFmt deployStep (mkState initialAgents [])).1.files =
      (mkState initialAgents []).files
    ∧ ("System", "Unknown action: " ++ "DEPLOY") ∈
        (execStep idFmt deployStep (mkState initialAgents [])).1.agentMessages
    ∧ (execStep idFmt deployStep (mkState initialAgents [])).2 = none
    ∧ runSteps idFmt (deployStep :: [chatStep]) (mkState initialAgents []) =
        runSteps idFmt [chatStep]
          (execStep idFmt deployStep (mkState initialAgents [])).1 :=
  c9_unknown_action_skipped_loop_continues idFmt deployStep [chatStep]
    (mkState initialAgents []) (by decide) (by decide) (by decide)

end AppBuildAgentic
